import Mathlib

/-!
Verification of the SoliDB Python binary-protocol client
(`clients/PYTHON-client/solidb/client.py`) against its specification.

The embedding models:
* msgpack values (`Value`) and the msgpack pack/unpack routines used by
  `msgpack.Packer(use_bin_type=True).pack` and `msgpack.unpackb(_, raw=False)`,
  restricted to the document-shaped values the protocol carries
  (nil/bool/int/float/str/bin/array/map; no ext types);
* the socket receive loop `recv_all` / `Client._receive_response`;
* the response-envelope interpretation and error mapping;
* `Client.connect` (atomic pool bring-up), `Client._get_next_socket`
  (round-robin selection) and `Client._send_command`.

Byte streams are `List Nat` with each byte < 256.  A socket's sequence of
`recv` results is a `List RecvEvent`: each `.bytes c` is what one `recv`
call returned (a real `recv n` returns at most `n` bytes, enforced with
`List.take`), and `.ioErr` is a `recv` call raising `OSError`.
Python strings are represented by their UTF-8 byte sequences; floats by
their IEEE-754 bit patterns (msgpack serializes exactly those 8 bytes).
-/

namespace SoliDB

set_option autoImplicit false
set_option maxRecDepth 4000

/-- Document-shaped msgpack value, as handled by the Python client:
`None`, `bool`, `int`, `float` (by bit pattern), `str` (by UTF-8 bytes),
`bytes`, `list`, `dict` (as the ordered list of its key/value pairs). -/
inductive Value where
  | nil : Value
  | bool (b : Bool) : Value
  | int (i : Int) : Value
  | float (bits : Nat) : Value
  | str (s : List Nat) : Value
  | bin (b : List Nat) : Value
  | arr (xs : List Value) : Value
  | map (kvs : List (Value × Value)) : Value

/-- Big-endian byte encoding of `n` on `k` bytes (`struct.pack` style). -/
def beBytes : Nat → Nat → List Nat
  | 0, _ => []
  | k + 1, n => beBytes k (n / 256) ++ [n % 256]

/-- Big-endian interpretation of a byte list (`struct.unpack(">I", _)` on a
4-byte list, and similarly for other widths). -/
def fromBE (l : List Nat) : Nat := l.foldl (fun a b => a * 256 + b) 0

/-- msgpack header for a str payload of `n` bytes
(fixstr / str8 / str16 / str32). -/
def strHeader (n : Nat) : List Nat :=
  if n < 32 then [160 + n]
  else if n < 256 then [217, n]
  else if n < 65536 then [218] ++ beBytes 2 n
  else [219] ++ beBytes 4 n

/-- msgpack header for a bin payload of `n` bytes (bin8 / bin16 / bin32);
emitted because the packer runs with `use_bin_type=True`. -/
def binHeader (n : Nat) : List Nat :=
  if n < 256 then [196, n]
  else if n < 65536 then [197] ++ beBytes 2 n
  else [198] ++ beBytes 4 n

/-- msgpack header for an array of `n` elements (fixarray / array16 / array32). -/
def arrHeader (n : Nat) : List Nat :=
  if n < 16 then [144 + n]
  else if n < 65536 then [220] ++ beBytes 2 n
  else [221] ++ beBytes 4 n

/-- msgpack header for a map of `n` entries (fixmap / map16 / map32). -/
def mapHeader (n : Nat) : List Nat :=
  if n < 16 then [128 + n]
  else if n < 65536 then [222] ++ beBytes 2 n
  else [223] ++ beBytes 4 n

/-- msgpack encoding of an integer, choosing the formats the Python packer
chooses (positive/negative fixint, then the smallest uint/int format). -/
def packInt (i : Int) : List Nat :=
  if 0 ≤ i ∧ i < 128 then [i.toNat]
  else if -32 ≤ i ∧ i < 0 then [(i + 256).toNat]
  else if 0 ≤ i ∧ i < 256 then [204, i.toNat]
  else if -128 ≤ i ∧ i < 0 then [208, (i + 256).toNat]
  else if 0 ≤ i ∧ i < 65536 then [205] ++ beBytes 2 i.toNat
  else if -32768 ≤ i ∧ i < 0 then [209] ++ beBytes 2 (i + 65536).toNat
  else if 0 ≤ i ∧ i < 4294967296 then [206] ++ beBytes 4 i.toNat
  else if -2147483648 ≤ i ∧ i < 0 then [210] ++ beBytes 4 (i + 4294967296).toNat
  else if 0 ≤ i then [207] ++ beBytes 8 i.toNat
  else [211] ++ beBytes 8 (i + 18446744073709551616).toNat

mutual

/-- msgpack serialization of a value: the model of
`msgpack.Packer(use_bin_type=True).pack`. -/
def encodeVal : Value → List Nat
  | .nil => [192]
  | .bool false => [194]
  | .bool true => [195]
  | .int i => packInt i
  | .float bits => [203] ++ beBytes 8 bits
  | .str s => strHeader s.length ++ s
  | .bin b => binHeader b.length ++ b
  | .arr xs => arrHeader xs.length ++ encodeElems xs
  | .map kvs => mapHeader kvs.length ++ encodePairs kvs

/-- Concatenated encodings of the elements of an array. -/
def encodeElems : List Value → List Nat
  | [] => []
  | x :: xs => encodeVal x ++ encodeElems xs

/-- Concatenated encodings of the key/value pairs of a map. -/
def encodePairs : List (Value × Value) → List Nat
  | [] => []
  | (k, v) :: kvs => encodeVal k ++ encodeVal v ++ encodePairs kvs

end

mutual

/-- Well-formedness of a value as a Python object the packer accepts:
all bytes are bytes, all lengths fit 32 bits, integers fit msgpack's
`[-2^63, 2^64)` range, float bit patterns fit 64 bits. -/
def wfValue : Value → Bool
  | .nil => true
  | .bool _ => true
  | .int i => decide (-9223372036854775808 ≤ i ∧ i < 18446744073709551616)
  | .float bits => decide (bits < 18446744073709551616)
  | .str s => decide (s.length < 4294967296) && s.all (· < 256)
  | .bin b => decide (b.length < 4294967296) && b.all (· < 256)
  | .arr xs => decide (xs.length < 4294967296) && wfElems xs
  | .map kvs => decide (kvs.length < 4294967296) && wfPairs kvs

/-- Well-formedness of every element of a list. -/
def wfElems : List Value → Bool
  | [] => true
  | x :: xs => wfValue x && wfElems xs

/-- Well-formedness of every key and value of a map. -/
def wfPairs : List (Value × Value) → Bool
  | [] => true
  | (k, v) :: kvs => wfValue k && wfValue v && wfPairs kvs

end

/-- Split off exactly `k` bytes from a stream, failing when it is shorter. -/
def takeN (k : Nat) (l : List Nat) : Option (List Nat × List Nat) :=
  if k ≤ l.length then some (l.take k, l.drop k) else none

mutual

/-- msgpack deserialization of one value from a byte stream, with a fuel
bound on nesting depth: the model of `msgpack.unpackb(_, raw=False)`
restricted to the formats the protocol uses (ext types and float32 are
rejected).  Returns the value and the unconsumed bytes. -/
def decodeVal : Nat → List Nat → Option (Value × List Nat)
  | 0, _ => none
  | _ + 1, [] => none
  | fuel + 1, b :: bs =>
    if b < 128 then some (.int b, bs)
    else if b < 144 then
      (decodePairs (b - 128) fuel bs).map fun (kvs, r) => (.map kvs, r)
    else if b < 160 then
      (decodeElems (b - 144) fuel bs).map fun (xs, r) => (.arr xs, r)
    else if b < 192 then
      (takeN (b - 160) bs).map fun (s, r) => (.str s, r)
    else if b = 192 then some (.nil, bs)
    else if b = 194 then some (.bool false, bs)
    else if b = 195 then some (.bool true, bs)
    else if b = 196 then
      (takeN 1 bs).bind fun (n, r) =>
        (takeN (fromBE n) r).map fun (p, r') => (.bin p, r')
    else if b = 197 then
      (takeN 2 bs).bind fun (n, r) =>
        (takeN (fromBE n) r).map fun (p, r') => (.bin p, r')
    else if b = 198 then
      (takeN 4 bs).bind fun (n, r) =>
        (takeN (fromBE n) r).map fun (p, r') => (.bin p, r')
    else if b = 203 then
      (takeN 8 bs).map fun (p, r) => (.float (fromBE p), r)
    else if b = 204 then
      (takeN 1 bs).map fun (p, r) => (.int (fromBE p), r)
    else if b = 205 then
      (takeN 2 bs).map fun (p, r) => (.int (fromBE p), r)
    else if b = 206 then
      (takeN 4 bs).map fun (p, r) => (.int (fromBE p), r)
    else if b = 207 then
      (takeN 8 bs).map fun (p, r) => (.int (fromBE p), r)
    else if b = 208 then
      (takeN 1 bs).map fun (p, r) =>
        (.int ((fromBE p : Int) - (if 128 ≤ fromBE p then 256 else 0)), r)
    else if b = 209 then
      (takeN 2 bs).map fun (p, r) =>
        (.int ((fromBE p : Int) - (if 32768 ≤ fromBE p then 65536 else 0)), r)
    else if b = 210 then
      (takeN 4 bs).map fun (p, r) =>
        (.int ((fromBE p : Int) -
          (if 2147483648 ≤ fromBE p then 4294967296 else 0)), r)
    else if b = 211 then
      (takeN 8 bs).map fun (p, r) =>
        (.int ((fromBE p : Int) -
          (if 9223372036854775808 ≤ fromBE p then 18446744073709551616 else 0)), r)
    else if b = 217 then
      (takeN 1 bs).bind fun (n, r) =>
        (takeN (fromBE n) r).map fun (p, r') => (.str p, r')
    else if b = 218 then
      (takeN 2 bs).bind fun (n, r) =>
        (takeN (fromBE n) r).map fun (p, r') => (.str p, r')
    else if b = 219 then
      (takeN 4 bs).bind fun (n, r) =>
        (takeN (fromBE n) r).map fun (p, r') => (.str p, r')
    else if b = 220 then
      (takeN 2 bs).bind fun (n, r) =>
        (decodeElems (fromBE n) fuel r).map fun (xs, r') => (.arr xs, r')
    else if b = 221 then
      (takeN 4 bs).bind fun (n, r) =>
        (decodeElems (fromBE n) fuel r).map fun (xs, r') => (.arr xs, r')
    else if b = 222 then
      (takeN 2 bs).bind fun (n, r) =>
        (decodePairs (fromBE n) fuel r).map fun (kvs, r') => (.map kvs, r')
    else if b = 223 then
      (takeN 4 bs).bind fun (n, r) =>
        (decodePairs (fromBE n) fuel r).map fun (kvs, r') => (.map kvs, r')
    else if 224 ≤ b ∧ b < 256 then some (.int ((b : Int) - 256), bs)
    else none
termination_by fuel _ => (fuel, 0)

/-- Deserialize `n` consecutive array elements. -/
def decodeElems : Nat → Nat → List Nat → Option (List Value × List Nat)
  | 0, _, bs => some ([], bs)
  | n + 1, fuel, bs =>
    (decodeVal fuel bs).bind fun (v, r) =>
      (decodeElems n fuel r).map fun (xs, r') => (v :: xs, r')
termination_by n fuel _ => (fuel, n + 1)

/-- Deserialize `n` consecutive key/value pairs. -/
def decodePairs : Nat → Nat → List Nat → Option (List (Value × Value) × List Nat)
  | 0, _, bs => some ([], bs)
  | n + 1, fuel, bs =>
    (decodeVal fuel bs).bind fun (k, r) =>
      (decodeVal fuel r).bind fun (v, r') =>
        (decodePairs n fuel r').map fun (kvs, r'') => ((k, v) :: kvs, r'')
termination_by n fuel _ => (fuel, n + 1)

end

/-- Deserialize a complete buffer: `msgpack.unpackb` fails unless the data
is one well-formed value consuming the whole buffer. -/
def decodeTop (data : List Nat) : Option Value :=
  match decodeVal data.length data with
  | some (v, []) => some v
  | _ => none

/-- Byte sequence of an ASCII string literal (for ASCII text the UTF-8
bytes are exactly the code points; every protocol tag and message in the
client is ASCII). -/
def strBytes (s : String) : List Nat := s.toList.map (fun c => c.toNat)

mutual

/-- Model of Python `repr` on document-shaped values: exact for `None`,
booleans and integers; strings/bytes are rendered between quote bytes
without escaping, floats by their bit pattern (their decimal rendering is
floating-point formatting, which no claim depends on); containers render
with brackets and comma-separated elements as Python does. -/
def pyRepr : Value → List Nat
  | .nil => strBytes "None"
  | .bool true => strBytes "True"
  | .bool false => strBytes "False"
  | .int i => strBytes (toString i)
  | .float bits => strBytes "float<" ++ strBytes (toString bits) ++ strBytes ">"
  | .str s => [39] ++ s ++ [39]
  | .bin b => strBytes "b" ++ [39] ++ b ++ [39]
  | .arr xs => [91] ++ reprElems xs ++ [93]
  | .map kvs => [123] ++ reprPairs kvs ++ [125]

/-- Comma-separated `repr`s of list elements. -/
def reprElems : List Value → List Nat
  | [] => []
  | [x] => pyRepr x
  | x :: xs => pyRepr x ++ strBytes ", " ++ reprElems xs

/-- Comma-separated `repr`s of map entries (`key: value`). -/
def reprPairs : List (Value × Value) → List Nat
  | [] => []
  | [(k, v)] => pyRepr k ++ strBytes ": " ++ pyRepr v
  | (k, v) :: kvs => pyRepr k ++ strBytes ": " ++ pyRepr v ++ strBytes ", " ++ reprPairs kvs

end

/-- Model of Python `str()`: the identity on strings, `repr` otherwise
(exact for `None`, booleans and integers). -/
def pyStr : Value → List Nat
  | .str s => s
  | v => pyRepr v

/-- The message computed for an `["error", body]` response
(client.py lines 141-143): `str(body)`, overridden by the sole value when
`body` is a dict with exactly one entry. -/
def errorMessage (body : Value) : Value :=
  match body with
  | .map [(_, v)] => v
  | b => .str (pyStr b)

/-- Python `d.get(key)` for a string key on a decoded dict: first entry
whose key is the given string (a non-string key never equals a string). -/
def mapGet (kvs : List (Value × Value)) (key : List Nat) : Option Value :=
  match kvs with
  | [] => none
  | (.str s, v) :: rest => if s = key then some v else mapGet rest key
  | _ :: rest => mapGet rest key

/-- Does an optional value equal the given Python string? -/
def isStrVal (o : Option Value) (s : List Nat) : Bool :=
  match o with
  | some (.str t) => t = s
  | _ => false

/-- Result of one receive: the decoded body, a server-reported error, a
protocol error, a connectivity error raised by the client itself, or an
`OSError` raised by the socket and propagating to `_send_command`. -/
inductive RespResult where
  | ok (body : Value)
  | serverError (msg : Value)
  | protocolError (msg : String)
  | connectionError (msg : String)
  | osError

/-- Envelope interpretation of a decoded response
(client.py lines 134-157): a list with a string head is split into status
and body (`response[1]` when present, else `None`); status `"error"`
raises `ServerError` with the derived message while every other status
returns the body; a dict uses the legacy `status`/`data`/`error` fields;
anything else is returned unchanged. -/
def interpretResponse (r : Value) : RespResult :=
  match r with
  | .arr (.str st :: tail) =>
      let body := tail.headD .nil
      if st = strBytes "ok" then .ok body
      else if st = strBytes "error" then .serverError (errorMessage body)
      else if st = strBytes "pong" then .ok body
      else .ok body
  | .map kvs =>
      if isStrVal (mapGet kvs (strBytes "status")) (strBytes "error") then
        .serverError (.str (pyStr ((mapGet kvs (strBytes "error")).getD
          (.str (strBytes "Unknown error")))))
      else if isStrVal (mapGet kvs (strBytes "status")) (strBytes "ok") then
        .ok ((mapGet kvs (strBytes "data")).getD .nil)
      else .ok (.map kvs)
  | v => .ok v

/-- One `sock.recv` outcome: returned bytes, or a raised `OSError`. -/
inductive RecvEvent where
  | bytes (chunk : List Nat)
  | ioErr
  deriving DecidableEq

/-- Outcome of the `recv_all` loop: the accumulated data, peer closure
(a zero-byte read), or a raised `OSError`. -/
inductive RecvOut where
  | got (data : List Nat)
  | closed
  | ioErr
  deriving DecidableEq

/-- The `recv_all(n)` loop of `_receive_response` (client.py lines
106-113): accumulate `recv` results until `n` bytes are held, returning
peer-closure as soon as a `recv` yields zero bytes.  A real `recv k`
returns at most `k` bytes, enforced by `take`; an exhausted event list
behaves as closure. -/
def recvAllAux (n : Nat) (acc : List Nat) (evs : List RecvEvent) :
    RecvOut × List RecvEvent :=
  if acc.length < n then
    match evs with
    | [] => (.closed, [])
    | .ioErr :: rest => (.ioErr, rest)
    | .bytes c :: rest =>
        let packet := c.take (n - acc.length)
        if packet.isEmpty then (.closed, rest)
        else recvAllAux n (acc ++ packet) rest
  else (.got acc, evs)

/-- `Client._receive_response` (client.py lines 105-157): read a 4-byte
big-endian length, reject lengths over 16 MiB before reading the body,
read the body, deserialize, interpret the envelope.  Returns the result
together with the new value of `self.connected` (which starts as
`connected`). -/
def receiveResponse (connected : Bool) (evs : List RecvEvent) :
    RespResult × Bool :=
  match recvAllAux 4 [] evs with
  | (.ioErr, _) => (.osError, connected)
  | (.closed, _) => (.connectionError "Server closed connection", false)
  | (.got header, rest) =>
    let length := fromBE header
    if length > 16777216 then
      (.protocolError ("Message too large: " ++ toString length ++ " bytes"),
        connected)
    else
      match recvAllAux length [] rest with
      | (.ioErr, _) => (.osError, connected)
      | (.closed, _) => (.connectionError "Incomplete response", false)
      | (.got data, _) =>
        if data.isEmpty then (.connectionError "Incomplete response", false)
        else
          match decodeTop data with
          | none => (.protocolError "Failed to deserialize response", connected)
          | some resp => (interpretResponse resp, connected)

/-- Client connection state: the socket pool, the round-robin cursor and
the `connected` flag. -/
structure ClientState where
  pool : List Nat
  poolIndex : Nat
  connected : Bool
  deriving DecidableEq

/-- The 14-byte magic preamble `b"solidb-drv-v1\x00"` written immediately
after TCP connect. -/
def magicHeader : List Nat := strBytes "solidb-drv-v1" ++ [0]

/-- `Client._create_socket` (client.py lines 45-50): open a TCP stream to
attempt number `i` and write the magic preamble; the socket is produced
only when both steps succeed. -/
def createSocket (tcp : Nat → Option Nat) (handshake : Nat → Bool) (i : Nat) :
    Option Nat :=
  match tcp i with
  | none => none
  | some sock => if handshake sock then some sock else none

/-- The creation loop of `Client.connect` (client.py lines 57-67):
create sockets for attempts `i, i+1, ...` until `remaining` have been
made; on the first failure return the sockets created so far (which the
code then closes) as the error payload. -/
def buildPool (attempt : Nat → Option Nat) :
    Nat → Nat → List Nat → Except (List Nat) (List Nat)
  | _, 0, acc => .ok acc
  | i, r + 1, acc =>
    match attempt i with
    | some sock => buildPool attempt (i + 1) r (acc ++ [sock])
    | none => .error acc

/-- `Client.connect` (client.py lines 52-69): a no-op when already
connected with a non-empty pool; otherwise build `poolSize` sockets
atomically.  On failure every created socket is closed, the pool is left
empty, `connected` keeps its value and a `ConnectionError` message is
returned; on success the pool is installed and `connected` becomes true. -/
def connectModel (attempt : Nat → Option Nat) (poolSize : Nat)
    (st : ClientState) : ClientState × Option String :=
  if st.connected ∧ st.pool ≠ [] then (st, none)
  else
    match buildPool attempt 0 poolSize [] with
    | .ok pool => ({ st with pool := pool, connected := true }, none)
    | .error _ => ({ st with pool := [] }, some "Failed to connect")

/-- `Client._get_next_socket` (client.py lines 81-85): return the socket
at the cursor and advance the cursor modulo the pool length.  `none`
models the `IndexError` Python would raise on an out-of-range cursor. -/
def getNextSocket (st : ClientState) : Option (Nat × ClientState) :=
  match st.pool.get? st.poolIndex with
  | none => none
  | some sock =>
      some (sock, { st with poolIndex := (st.poolIndex + 1) % st.pool.length })

/-- The socket returned by the `(k+1)`-th call to `_get_next_socket`
starting from state `st`, together with the state after that call. -/
def stepK (st : ClientState) : Nat → Option (Nat × ClientState)
  | 0 => getNextSocket st
  | k + 1 =>
    match getNextSocket st with
    | none => none
    | some (_, st') => stepK st' k

/-- The environment of one `_send_command` call: TCP connect outcomes and
handshake outcomes for bring-up attempts, per-socket `sendall` success,
and each socket's stream of `recv` outcomes. -/
structure SendWorld where
  tcp : Nat → Option Nat
  handshake : Nat → Bool
  sendOk : Nat → Bool
  recvEvents : Nat → List RecvEvent

/-- The frame written for a command (client.py lines 96-98): 4-byte
big-endian length of the msgpack payload, then the payload. -/
def encodeFrame (cmd : Value) : List Nat :=
  beBytes 4 (encodeVal cmd).length ++ encodeVal cmd

/-- The send-and-receive part of `_send_command` (client.py lines
95-103) on the selected socket: send the frame, receive the response.
An `OSError` from `sendall` or from `recv` is caught, marks the whole
client disconnected and surfaces as a `ConnectionError`; the client's
own `ConnectionError` and `ProtocolError` (not subclasses of `OSError`)
propagate unchanged. -/
def sendReceive (w : SendWorld) (sock : Nat) (st₂ : ClientState) :
    Option (RespResult × ClientState) :=
  if w.sendOk sock then
    match receiveResponse st₂.connected (w.recvEvents sock) with
    | (.osError, _) =>
        some (.connectionError "Connection lost",
          { st₂ with connected := false })
    | (r, c) => some (r, { st₂ with connected := c })
  else
    some (.connectionError "Connection lost",
      { st₂ with connected := false })

/-- `Client._send_command` (client.py lines 87-103): reconnect when not
connected or the pool is empty, pick the next socket round-robin, then
send and receive on it.  `none` models the unreachable `IndexError` on an
out-of-range cursor. -/
def sendCommand (w : SendWorld) (poolSize : Nat) (st : ClientState) :
    Option (RespResult × ClientState) :=
  let bringUp :=
    if st.connected ∧ st.pool ≠ [] then (st, none)
    else connectModel (createSocket w.tcp w.handshake) poolSize st
  match bringUp with
  | (st₁, some e) => some (.connectionError e, st₁)
  | (st₁, none) =>
    match getNextSocket st₁ with
    | none => none
    | some (sock, st₂) => sendReceive w sock st₂

/-- `chunks` is a chunking of `bytes`: the chunks concatenate to `bytes`
and each is non-empty (a real `recv` on an open connection returns at
least one byte). -/
def Chunked (chunks : List (List Nat)) (bytes : List Nat) : Prop :=
  chunks.flatten = bytes ∧ [] ∉ chunks

/-- View a list of data chunks as a stream of `recv` outcomes. -/
def asEvents (chunks : List (List Nat)) : List RecvEvent :=
  chunks.map .bytes

/-- Is the value a non-empty Python list whose first element is a string
(the shape line 134 of client.py dispatches on)? -/
def isStrHeadList : Value → Bool
  | .arr (.str _ :: _) => true
  | _ => false

/-- Is the value a Python dict? -/
def isMap : Value → Bool
  | .map _ => true
  | _ => false

/-! ### Byte-level lemmas -/

theorem beBytes_length (k : Nat) : ∀ n, (beBytes k n).length = k := by
  induction k with
  | zero => intro n; rfl
  | succ k ih => intro n; simp [beBytes, ih]

theorem fromBE_aux (l : List Nat) : ∀ a : Nat,
    l.foldl (fun x b => x * 256 + b) a = a * 256 ^ l.length + fromBE l := by
  induction l with
  | nil => intro a; simp [fromBE]
  | cons c l ih =>
      intro a
      have h1 : fromBE (c :: l) = c * 256 ^ l.length + fromBE l := by
        show l.foldl _ (0 * 256 + c) = _
        rw [ih (0 * 256 + c)]; ring_nf
      simp only [List.foldl_cons, ih (a * 256 + c), h1, List.length_cons]
      ring

theorem fromBE_append (l1 l2 : List Nat) :
    fromBE (l1 ++ l2) = fromBE l1 * 256 ^ l2.length + fromBE l2 := by
  simp only [fromBE, List.foldl_append]
  exact fromBE_aux l2 _

theorem fromBE_singleton (m : Nat) : fromBE [m] = m := by
  simp [fromBE]

theorem fromBE_beBytes (k : Nat) : ∀ n, n < 256 ^ k → fromBE (beBytes k n) = n := by
  induction k with
  | zero => intro n h; interval_cases n; rfl
  | succ k ih =>
      intro n h
      have hd : n / 256 < 256 ^ k := by
        rw [Nat.div_lt_iff_lt_mul (by norm_num)]
        calc n < 256 ^ (k + 1) := h
        _ = 256 ^ k * 256 := by ring
      rw [beBytes, fromBE_append, ih _ hd, fromBE_singleton]
      simp
      omega

theorem takeN_exact (k : Nat) (l rest : List Nat) (h : l.length = k) :
    takeN k (l ++ rest) = some (l, rest) := by
  subst h
  simp [takeN, List.take_left, List.drop_left]

/-! ### Decoder reduction lemmas, one per msgpack format -/

theorem decodeVal_posfix (fuel b : Nat) (bs : List Nat) (h : b < 128) :
    decodeVal (fuel + 1) (b :: bs) = some (.int b, bs) := by
  rw [decodeVal]; rw [if_pos h]

theorem decodeVal_negfix (fuel b : Nat) (bs : List Nat) (h1 : 224 ≤ b)
    (h2 : b < 256) :
    decodeVal (fuel + 1) (b :: bs) = some (.int ((b : Int) - 256), bs) := by
  interval_cases b <;> (rw [decodeVal]; norm_num)

theorem decodeVal_fixmap (fuel n : Nat) (bs : List Nat) (h : n < 16) :
    decodeVal (fuel + 1) ((128 + n) :: bs) =
      (decodePairs n fuel bs).map fun (kvs, r) => (Value.map kvs, r) := by
  rw [decodeVal]
  rw [if_neg (by omega), if_pos (by omega)]
  simp

theorem decodeVal_fixarr (fuel n : Nat) (bs : List Nat) (h : n < 16) :
    decodeVal (fuel + 1) ((144 + n) :: bs) =
      (decodeElems n fuel bs).map fun (xs, r) => (Value.arr xs, r) := by
  rw [decodeVal]
  rw [if_neg (by omega), if_neg (by omega), if_pos (by omega)]
  simp

theorem decodeVal_fixstr (fuel n : Nat) (bs : List Nat) (h : n < 32) :
    decodeVal (fuel + 1) ((160 + n) :: bs) =
      (takeN n bs).map fun (s, r) => (Value.str s, r) := by
  rw [decodeVal]
  rw [if_neg (by omega), if_neg (by omega), if_neg (by omega), if_pos (by omega)]
  simp

theorem decodeVal_nilB (fuel : Nat) (bs : List Nat) :
    decodeVal (fuel + 1) (192 :: bs) = some (Value.nil, bs) := by
  rw [decodeVal]; norm_num

theorem decodeVal_falseB (fuel : Nat) (bs : List Nat) :
    decodeVal (fuel + 1) (194 :: bs) = some (Value.bool false, bs) := by
  rw [decodeVal]; norm_num

theorem decodeVal_trueB (fuel : Nat) (bs : List Nat) :
    decodeVal (fuel + 1) (195 :: bs) = some (Value.bool true, bs) := by
  rw [decodeVal]; norm_num

theorem decodeVal_bin8 (fuel : Nat) (bs : List Nat) :
    decodeVal (fuel + 1) (196 :: bs) =
      (takeN 1 bs).bind fun (n, r) =>
        (takeN (fromBE n) r).map fun (p, r') => (Value.bin p, r') := by
  rw [decodeVal]; norm_num

theorem decodeVal_bin16 (fuel : Nat) (bs : List Nat) :
    decodeVal (fuel + 1) (197 :: bs) =
      (takeN 2 bs).bind fun (n, r) =>
        (takeN (fromBE n) r).map fun (p, r') => (Value.bin p, r') := by
  rw [decodeVal]; norm_num

theorem decodeVal_bin32 (fuel : Nat) (bs : List Nat) :
    decodeVal (fuel + 1) (198 :: bs) =
      (takeN 4 bs).bind fun (n, r) =>
        (takeN (fromBE n) r).map fun (p, r') => (Value.bin p, r') := by
  rw [decodeVal]; norm_num

theorem decodeVal_float64 (fuel : Nat) (bs : List Nat) :
    decodeVal (fuel + 1) (203 :: bs) =
      (takeN 8 bs).map fun (p, r) => (Value.float (fromBE p), r) := by
  rw [decodeVal]; norm_num

theorem decodeVal_uint8 (fuel : Nat) (bs : List Nat) :
    decodeVal (fuel + 1) (204 :: bs) =
      (takeN 1 bs).map fun (p, r) => (Value.int (fromBE p), r) := by
  rw [decodeVal]; norm_num

theorem decodeVal_uint16 (fuel : Nat) (bs : List Nat) :
    decodeVal (fuel + 1) (205 :: bs) =
      (takeN 2 bs).map fun (p, r) => (Value.int (fromBE p), r) := by
  rw [decodeVal]; norm_num

theorem decodeVal_uint32 (fuel : Nat) (bs : List Nat) :
    decodeVal (fuel + 1) (206 :: bs) =
      (takeN 4 bs).map fun (p, r) => (Value.int (fromBE p), r) := by
  rw [decodeVal]; norm_num

theorem decodeVal_uint64 (fuel : Nat) (bs : List Nat) :
    decodeVal (fuel + 1) (207 :: bs) =
      (takeN 8 bs).map fun (p, r) => (Value.int (fromBE p), r) := by
  rw [decodeVal]; norm_num

theorem decodeVal_int8 (fuel : Nat) (bs : List Nat) :
    decodeVal (fuel + 1) (208 :: bs) =
      (takeN 1 bs).map fun (p, r) =>
        (Value.int ((fromBE p : Int) - (if 128 ≤ fromBE p then 256 else 0)), r) := by
  rw [decodeVal]; norm_num

theorem decodeVal_int16 (fuel : Nat) (bs : List Nat) :
    decodeVal (fuel + 1) (209 :: bs) =
      (takeN 2 bs).map fun (p, r) =>
        (Value.int ((fromBE p : Int) -
          (if 32768 ≤ fromBE p then 65536 else 0)), r) := by
  rw [decodeVal]; norm_num

theorem decodeVal_int32 (fuel : Nat) (bs : List Nat) :
    decodeVal (fuel + 1) (210 :: bs) =
      (takeN 4 bs).map fun (p, r) =>
        (Value.int ((fromBE p : Int) -
          (if 2147483648 ≤ fromBE p then 4294967296 else 0)), r) := by
  rw [decodeVal]; norm_num

theorem decodeVal_int64 (fuel : Nat) (bs : List Nat) :
    decodeVal (fuel + 1) (211 :: bs) =
      (takeN 8 bs).map fun (p, r) =>
        (Value.int ((fromBE p : Int) -
          (if 9223372036854775808 ≤ fromBE p
           then 18446744073709551616 else 0)), r) := by
  rw [decodeVal]; norm_num

theorem decodeVal_str8 (fuel : Nat) (bs : List Nat) :
    decodeVal (fuel + 1) (217 :: bs) =
      (takeN 1 bs).bind fun (n, r) =>
        (takeN (fromBE n) r).map fun (p, r') => (Value.str p, r') := by
  rw [decodeVal]; norm_num

theorem decodeVal_str16 (fuel : Nat) (bs : List Nat) :
    decodeVal (fuel + 1) (218 :: bs) =
      (takeN 2 bs).bind fun (n, r) =>
        (takeN (fromBE n) r).map fun (p, r') => (Value.str p, r') := by
  rw [decodeVal]; norm_num

theorem decodeVal_str32 (fuel : Nat) (bs : List Nat) :
    decodeVal (fuel + 1) (219 :: bs) =
      (takeN 4 bs).bind fun (n, r) =>
        (takeN (fromBE n) r).map fun (p, r') => (Value.str p, r') := by
  rw [decodeVal]; norm_num

theorem decodeVal_arr16 (fuel : Nat) (bs : List Nat) :
    decodeVal (fuel + 1) (220 :: bs) =
      (takeN 2 bs).bind fun (n, r) =>
        (decodeElems (fromBE n) fuel r).map fun (xs, r') => (Value.arr xs, r') := by
  rw [decodeVal]; norm_num

theorem decodeVal_arr32 (fuel : Nat) (bs : List Nat) :
    decodeVal (fuel + 1) (221 :: bs) =
      (takeN 4 bs).bind fun (n, r) =>
        (decodeElems (fromBE n) fuel r).map fun (xs, r') => (Value.arr xs, r') := by
  rw [decodeVal]; norm_num

theorem decodeVal_map16 (fuel : Nat) (bs : List Nat) :
    decodeVal (fuel + 1) (222 :: bs) =
      (takeN 2 bs).bind fun (n, r) =>
        (decodePairs (fromBE n) fuel r).map fun (kvs, r') =>
          (Value.map kvs, r') := by
  rw [decodeVal]; norm_num

theorem decodeVal_map32 (fuel : Nat) (bs : List Nat) :
    decodeVal (fuel + 1) (223 :: bs) =
      (takeN 4 bs).bind fun (n, r) =>
        (decodePairs (fromBE n) fuel r).map fun (kvs, r') =>
          (Value.map kvs, r') := by
  rw [decodeVal]; norm_num

theorem takeN_one (m : Nat) (r : List Nat) :
    takeN 1 (m :: r) = some ([m], r) :=
  takeN_exact 1 [m] r rfl

/-! ### Round trip: the decoder inverts the encoder -/

theorem strHeader_pos (n : Nat) : 1 ≤ (strHeader n).length := by
  unfold strHeader; split_ifs <;> simp [beBytes_length]

theorem binHeader_pos (n : Nat) : 1 ≤ (binHeader n).length := by
  unfold binHeader; split_ifs <;> simp [beBytes_length]

theorem arrHeader_pos (n : Nat) : 1 ≤ (arrHeader n).length := by
  unfold arrHeader; split_ifs <;> simp [beBytes_length]

theorem mapHeader_pos (n : Nat) : 1 ≤ (mapHeader n).length := by
  unfold mapHeader; split_ifs <;> simp [beBytes_length]

theorem packInt_pos (i : Int) : 1 ≤ (packInt i).length := by
  unfold packInt; split_ifs <;> simp [beBytes_length]

/-- Every msgpack encoding is at least one byte long. -/
theorem encodeVal_pos (v : Value) : 1 ≤ (encodeVal v).length := by
  cases v with
  | nil => simp [encodeVal]
  | bool b => cases b <;> simp [encodeVal]
  | int i => simpa [encodeVal] using packInt_pos i
  | float bits => simp [encodeVal]
  | str s => have := strHeader_pos s.length; simp [encodeVal]; omega
  | bin b => have := binHeader_pos b.length; simp [encodeVal]; omega
  | arr xs => have := arrHeader_pos xs.length; simp [encodeVal]; omega
  | map kvs => have := mapHeader_pos kvs.length; simp [encodeVal]; omega

/-- Joint fuel-indexed round-trip statement for values, array elements and
map entries: with fuel at least the encoding length, the decoder returns
exactly the encoded value and leaves the rest of the stream untouched. -/
theorem decode_encode_fuel : ∀ fuel : Nat,
    (∀ v rest, wfValue v = true → (encodeVal v).length ≤ fuel →
      decodeVal fuel (encodeVal v ++ rest) = some (v, rest)) ∧
    (∀ xs rest, wfElems xs = true → (encodeElems xs).length ≤ fuel →
      decodeElems xs.length fuel (encodeElems xs ++ rest) = some (xs, rest)) ∧
    (∀ kvs rest, wfPairs kvs = true → (encodePairs kvs).length ≤ fuel →
      decodePairs kvs.length fuel (encodePairs kvs ++ rest) = some (kvs, rest)) := by
  intro fuel
  induction fuel with
  | zero =>
      refine ⟨?_, ?_, ?_⟩
      · intro v rest _ hlen
        have := encodeVal_pos v; omega
      · intro xs rest _ hlen
        cases xs with
        | nil => simp [encodeElems, decodeElems]
        | cons x xs =>
            have := encodeVal_pos x
            simp only [encodeElems, List.length_append] at hlen
            omega
      · intro kvs rest _ hlen
        cases kvs with
        | nil => simp [encodePairs, decodePairs]
        | cons kv kvs =>
            obtain ⟨k, v⟩ := kv
            have := encodeVal_pos k
            simp only [encodePairs, List.length_append] at hlen
            omega
  | succ f ih =>
      obtain ⟨ihP, ihQ, ihR⟩ := ih
      have hP : ∀ v rest, wfValue v = true → (encodeVal v).length ≤ f + 1 →
          decodeVal (f + 1) (encodeVal v ++ rest) = some (v, rest) := by
        intro v rest hwf hlen
        cases v with
        | nil => simpa [encodeVal] using decodeVal_nilB f rest
        | bool b =>
            cases b
            · simpa [encodeVal] using decodeVal_falseB f rest
            · simpa [encodeVal] using decodeVal_trueB f rest
        | int i =>
            simp only [wfValue, decide_eq_true_eq] at hwf
            simp only [encodeVal]
            unfold packInt
            split_ifs with h1 h2 h3 h4 h5 h6 h7 h8 h9
            · rw [List.cons_append, List.nil_append,
                decodeVal_posfix f _ rest (by omega)]
              simp only [Option.some.injEq, Prod.mk.injEq, Value.int.injEq, eq_self_iff_true, and_true]
              omega
            · rw [List.cons_append, List.nil_append,
                decodeVal_negfix f _ rest (by omega) (by omega)]
              simp only [Option.some.injEq, Prod.mk.injEq, Value.int.injEq, eq_self_iff_true, and_true]
              omega
            · rw [List.cons_append, List.cons_append, List.nil_append,
                decodeVal_uint8, takeN_one]
              simp only [Option.map_some', fromBE_singleton, Option.some.injEq,
                Prod.mk.injEq, Value.int.injEq, eq_self_iff_true, and_true]
              omega
            · rw [List.cons_append, List.cons_append, List.nil_append,
                decodeVal_int8, takeN_one]
              simp only [Option.map_some', fromBE_singleton]
              rw [if_pos (by omega)]
              simp only [Option.some.injEq, Prod.mk.injEq, Value.int.injEq, eq_self_iff_true, and_true]
              omega
            · rw [List.append_assoc, List.cons_append, List.nil_append,
                decodeVal_uint16,
                takeN_exact 2 _ rest (beBytes_length 2 _)]
              simp only [Option.map_some', Option.some.injEq, Prod.mk.injEq,
                Value.int.injEq, eq_self_iff_true, and_true]
              rw [fromBE_beBytes 2 _ (by norm_num; omega)]
              omega
            · rw [List.append_assoc, List.cons_append, List.nil_append,
                decodeVal_int16,
                takeN_exact 2 _ rest (beBytes_length 2 _)]
              simp only [Option.map_some']
              rw [fromBE_beBytes 2 _ (by norm_num; omega), if_pos (by omega)]
              simp only [Option.some.injEq, Prod.mk.injEq, Value.int.injEq, eq_self_iff_true, and_true]
              omega
            · rw [List.append_assoc, List.cons_append, List.nil_append,
                decodeVal_uint32,
                takeN_exact 4 _ rest (beBytes_length 4 _)]
              simp only [Option.map_some', Option.some.injEq, Prod.mk.injEq,
                Value.int.injEq, eq_self_iff_true, and_true]
              rw [fromBE_beBytes 4 _ (by norm_num; omega)]
              omega
            · rw [List.append_assoc, List.cons_append, List.nil_append,
                decodeVal_int32,
                takeN_exact 4 _ rest (beBytes_length 4 _)]
              simp only [Option.map_some']
              rw [fromBE_beBytes 4 _ (by norm_num; omega), if_pos (by omega)]
              simp only [Option.some.injEq, Prod.mk.injEq, Value.int.injEq, eq_self_iff_true, and_true]
              omega
            · rw [List.append_assoc, List.cons_append, List.nil_append,
                decodeVal_uint64,
                takeN_exact 8 _ rest (beBytes_length 8 _)]
              simp only [Option.map_some', Option.some.injEq, Prod.mk.injEq,
                Value.int.injEq, eq_self_iff_true, and_true]
              rw [fromBE_beBytes 8 _ (by norm_num; omega)]
              omega
            · rw [List.append_assoc, List.cons_append, List.nil_append,
                decodeVal_int64,
                takeN_exact 8 _ rest (beBytes_length 8 _)]
              simp only [Option.map_some']
              rw [fromBE_beBytes 8 _ (by norm_num; omega), if_pos (by omega)]
              simp only [Option.some.injEq, Prod.mk.injEq, Value.int.injEq, eq_self_iff_true, and_true]
              omega
        | float bits =>
            simp only [wfValue, decide_eq_true_eq] at hwf
            simp only [encodeVal, List.append_assoc, List.cons_append,
              List.nil_append]
            rw [decodeVal_float64, takeN_exact 8 _ rest (beBytes_length 8 _)]
            simp only [Option.map_some', Option.some.injEq, Prod.mk.injEq,
              Value.float.injEq]
            rw [fromBE_beBytes 8 _ (by norm_num; omega)]
            exact ⟨rfl, trivial⟩
        | str s =>
            simp only [wfValue, Bool.and_eq_true, decide_eq_true_eq] at hwf
            simp only [encodeVal]
            unfold strHeader
            split_ifs with h1 h2 h3
            all_goals
              simp only [List.append_assoc, List.cons_append, List.nil_append]
            · rw [decodeVal_fixstr f _ _ h1, takeN_exact _ s rest rfl]
              simp
            · rw [decodeVal_str8, takeN_one]
              simp only [Option.some_bind, fromBE_singleton]
              rw [takeN_exact _ s rest rfl]
              simp
            · rw [decodeVal_str16, takeN_exact 2 _ _ (beBytes_length 2 _)]
              simp only [Option.some_bind]
              rw [fromBE_beBytes 2 _ (by norm_num; omega),
                takeN_exact _ s rest rfl]
              simp
            · rw [decodeVal_str32, takeN_exact 4 _ _ (beBytes_length 4 _)]
              simp only [Option.some_bind]
              rw [fromBE_beBytes 4 _ (by norm_num; omega),
                takeN_exact _ s rest rfl]
              simp
        | bin b =>
            simp only [wfValue, Bool.and_eq_true, decide_eq_true_eq] at hwf
            simp only [encodeVal]
            unfold binHeader
            split_ifs with h1 h2
            all_goals
              simp only [List.append_assoc, List.cons_append, List.nil_append]
            · rw [decodeVal_bin8, takeN_one]
              simp only [Option.some_bind, fromBE_singleton]
              rw [takeN_exact _ b rest rfl]
              simp
            · rw [decodeVal_bin16, takeN_exact 2 _ _ (beBytes_length 2 _)]
              simp only [Option.some_bind]
              rw [fromBE_beBytes 2 _ (by norm_num; omega),
                takeN_exact _ b rest rfl]
              simp
            · rw [decodeVal_bin32, takeN_exact 4 _ _ (beBytes_length 4 _)]
              simp only [Option.some_bind]
              rw [fromBE_beBytes 4 _ (by norm_num; omega),
                takeN_exact _ b rest rfl]
              simp
        | arr xs =>
            simp only [wfValue, Bool.and_eq_true, decide_eq_true_eq] at hwf
            have hlen' : (encodeElems xs).length ≤ f := by
              have := arrHeader_pos xs.length
              simp only [encodeVal, List.length_append] at hlen
              omega
            simp only [encodeVal]
            unfold arrHeader
            split_ifs with h1 h2
            all_goals
              simp only [List.append_assoc, List.cons_append, List.nil_append]
            · rw [decodeVal_fixarr f _ _ h1, ihQ xs rest hwf.2 hlen']
              simp
            · rw [decodeVal_arr16, takeN_exact 2 _ _ (beBytes_length 2 _)]
              simp only [Option.some_bind]
              rw [fromBE_beBytes 2 _ (by norm_num; omega),
                ihQ xs rest hwf.2 hlen']
              simp
            · rw [decodeVal_arr32, takeN_exact 4 _ _ (beBytes_length 4 _)]
              simp only [Option.some_bind]
              rw [fromBE_beBytes 4 _ (by norm_num; omega),
                ihQ xs rest hwf.2 hlen']
              simp
        | map kvs =>
            simp only [wfValue, Bool.and_eq_true, decide_eq_true_eq] at hwf
            have hlen' : (encodePairs kvs).length ≤ f := by
              have := mapHeader_pos kvs.length
              simp only [encodeVal, List.length_append] at hlen
              omega
            simp only [encodeVal]
            unfold mapHeader
            split_ifs with h1 h2
            all_goals
              simp only [List.append_assoc, List.cons_append, List.nil_append]
            · rw [decodeVal_fixmap f _ _ h1, ihR kvs rest hwf.2 hlen']
              simp
            · rw [decodeVal_map16, takeN_exact 2 _ _ (beBytes_length 2 _)]
              simp only [Option.some_bind]
              rw [fromBE_beBytes 2 _ (by norm_num; omega),
                ihR kvs rest hwf.2 hlen']
              simp
            · rw [decodeVal_map32, takeN_exact 4 _ _ (beBytes_length 4 _)]
              simp only [Option.some_bind]
              rw [fromBE_beBytes 4 _ (by norm_num; omega),
                ihR kvs rest hwf.2 hlen']
              simp
      refine ⟨hP, ?_, ?_⟩
      · intro xs
        induction xs with
        | nil => intro rest _ _; simp [encodeElems, decodeElems]
        | cons x xs ihxs =>
            intro rest hwf hlen
            simp only [wfElems, Bool.and_eq_true] at hwf
            simp only [encodeElems, List.length_append] at hlen
            have h1 : (encodeVal x).length ≤ f + 1 := by omega
            have h2 : (encodeElems xs).length ≤ f + 1 := by omega
            simp only [encodeElems, List.append_assoc, List.length_cons]
            rw [decodeElems, hP x _ hwf.1 h1]
            simp only [Option.some_bind]
            rw [ihxs _ hwf.2 h2]
            simp
      · intro kvs
        induction kvs with
        | nil => intro rest _ _; simp [encodePairs, decodePairs]
        | cons kv kvs ihkvs =>
            obtain ⟨k, v⟩ := kv
            intro rest hwf hlen
            simp only [wfPairs, Bool.and_eq_true] at hwf
            simp only [encodePairs, List.length_append] at hlen
            have h1 : (encodeVal k).length ≤ f + 1 := by omega
            have h2 : (encodeVal v).length ≤ f + 1 := by omega
            have h3 : (encodePairs kvs).length ≤ f + 1 := by omega
            simp only [encodePairs, List.append_assoc, List.length_cons]
            rw [decodePairs, hP k _ hwf.1.1 h1]
            simp only [Option.some_bind]
            rw [hP v _ hwf.1.2 h2]
            simp only [Option.some_bind]
            rw [ihkvs _ hwf.2 h3]
            simp

/-- Structural round trip at the msgpack layer:
`unpackb(pack(command)) == command` for every representable value. -/
theorem decodeTop_encodeVal (v : Value) (hwf : wfValue v = true) :
    decodeTop (encodeVal v) = some v := by
  have h := (decode_encode_fuel (encodeVal v).length).1 v [] hwf le_rfl
  rw [List.append_nil] at h
  simp [decodeTop, h]

theorem recvAllAux_chunked : ∀ (chunks : List (List Nat)) (acc bytes : List Nat)
    (n : Nat) (evs : List RecvEvent), Chunked chunks bytes →
    acc.length + bytes.length = n →
    recvAllAux n acc (asEvents chunks ++ evs) = (.got (acc ++ bytes), evs) := by
  intro chunks
  induction chunks with
  | nil =>
      intro acc bytes n evs hc hn
      obtain ⟨hflat, -⟩ := hc
      simp only [List.flatten_nil] at hflat
      subst hflat
      rw [recvAllAux.eq_def]
      simp at hn
      rw [if_neg (by omega)]
      simp [asEvents]
  | cons c cs ih =>
      intro acc bytes n evs hc hn
      obtain ⟨hflat, hne⟩ := hc
      simp only [List.flatten_cons] at hflat
      have hcne : c ≠ [] := fun h => hne (by simp [h])
      have hcsne : [] ∉ cs := fun h => hne (List.mem_cons_of_mem _ h)
      subst hflat
      have hclen : 1 ≤ c.length := by
        cases c with
        | nil => exact absurd rfl hcne
        | cons a as => simp
      rw [recvAllAux.eq_def]
      rw [if_pos (by simp at hn ⊢; omega)]
      simp only [asEvents, List.map_cons, List.cons_append]
      have htake : c.take (n - acc.length) = c := by
        apply List.take_of_length_le
        simp at hn
        omega
      simp only [htake]
      rw [if_neg (by simpa using hcne)]
      have := ih (acc ++ c) cs.flatten n evs ⟨rfl, hcsne⟩ (by simp at hn ⊢; omega)
      simpa [asEvents, List.append_assoc] using this
theorem asEvents_append (a b : List (List Nat)) :
    asEvents (a ++ b) = asEvents a ++ asEvents b := List.map_append _ a b

theorem recvAllAux_closed_mid : ∀ (chunks : List (List Nat)) (acc part : List Nat)
    (n : Nat) (evs : List RecvEvent), Chunked chunks part →
    acc.length + part.length < n →
    recvAllAux n acc (asEvents chunks ++ (.bytes [] :: evs)) = (.closed, evs) := by
  intro chunks
  induction chunks with
  | nil =>
      intro acc part n evs hc hn
      obtain ⟨hflat, -⟩ := hc
      simp only [List.flatten_nil] at hflat
      subst hflat
      rw [recvAllAux.eq_def]
      rw [if_pos (by simp at hn; omega)]
      simp [asEvents]
  | cons c cs ih =>
      intro acc part n evs hc hn
      obtain ⟨hflat, hne⟩ := hc
      simp only [List.flatten_cons] at hflat
      have hcne : c ≠ [] := fun h => hne (by simp [h])
      have hcsne : [] ∉ cs := fun h => hne (List.mem_cons_of_mem _ h)
      subst hflat
      simp only [List.length_append] at hn
      rw [recvAllAux.eq_def]
      rw [if_pos (by omega)]
      simp only [asEvents, List.map_cons, List.cons_append]
      have htake : c.take (n - acc.length) = c :=
        List.take_of_length_le (by omega)
      simp only [htake]
      rw [if_neg (by simpa using hcne)]
      have := ih (acc ++ c) cs.flatten n evs ⟨rfl, hcsne⟩ (by simp only [List.length_append]; omega)
      simpa [asEvents] using this

theorem recvAllAux_ioerr_mid : ∀ (chunks : List (List Nat)) (acc part : List Nat)
    (n : Nat) (evs : List RecvEvent), Chunked chunks part →
    acc.length + part.length < n →
    recvAllAux n acc (asEvents chunks ++ (.ioErr :: evs)) = (.ioErr, evs) := by
  intro chunks
  induction chunks with
  | nil =>
      intro acc part n evs hc hn
      obtain ⟨hflat, -⟩ := hc
      simp only [List.flatten_nil] at hflat
      subst hflat
      rw [recvAllAux.eq_def]
      rw [if_pos (by simp at hn; omega)]
      simp [asEvents]
  | cons c cs ih =>
      intro acc part n evs hc hn
      obtain ⟨hflat, hne⟩ := hc
      simp only [List.flatten_cons] at hflat
      have hcne : c ≠ [] := fun h => hne (by simp [h])
      have hcsne : [] ∉ cs := fun h => hne (List.mem_cons_of_mem _ h)
      subst hflat
      simp only [List.length_append] at hn
      rw [recvAllAux.eq_def]
      rw [if_pos (by omega)]
      simp only [asEvents, List.map_cons, List.cons_append]
      have htake : c.take (n - acc.length) = c :=
        List.take_of_length_le (by omega)
      simp only [htake]
      rw [if_neg (by simpa using hcne)]
      have := ih (acc ++ c) cs.flatten n evs ⟨rfl, hcsne⟩ (by simp only [List.length_append]; omega)
      simpa [asEvents] using this
/-- Successful framed receive: header and body delivered in arbitrary
non-empty chunks reassemble into one frame, which is then deserialized. -/
theorem receiveResponse_body (conn : Bool) (hc bc : List (List Nat))
    (evs : List RecvEvent) (body : List Nat)
    (hhc : Chunked hc (beBytes 4 body.length))
    (hbc : Chunked bc body)
    (h1 : 1 ≤ body.length) (h2 : body.length ≤ 16777216) :
    receiveResponse conn (asEvents (hc ++ bc) ++ evs) =
      ((match decodeTop body with
        | some v => interpretResponse v
        | none => .protocolError "Failed to deserialize response"), conn) := by
  have hh := recvAllAux_chunked hc [] (beBytes 4 body.length) 4
    (asEvents bc ++ evs) hhc (by simp [beBytes_length])
  have hb := recvAllAux_chunked bc [] body body.length evs hbc (by simp)
  have hemp : body.isEmpty = false := by
    cases body with
    | nil => simp at h1
    | cons a as => rfl
  unfold receiveResponse
  rw [asEvents_append, List.append_assoc, hh]
  simp only [List.nil_append]
  rw [fromBE_beBytes 4 _ (by norm_num; omega)]
  rw [if_neg (by omega), hb]
  simp only [List.nil_append, hemp, Bool.false_eq_true, if_false]
  cases decodeTop body <;> rfl

/-- A declared length over 16 MiB is rejected right after the header,
whatever follows on the stream. -/
theorem receiveResponse_too_large (conn : Bool) (hc : List (List Nat))
    (evs : List RecvEvent) (L : Nat)
    (hhc : Chunked hc (beBytes 4 L)) (hbig : 16777216 < L)
    (hfit : L < 4294967296) :
    receiveResponse conn (asEvents hc ++ evs) =
      (.protocolError ("Message too large: " ++ toString L ++ " bytes"),
        conn) := by
  have hh := recvAllAux_chunked hc [] (beBytes 4 L) 4 evs hhc
    (by simp [beBytes_length])
  unfold receiveResponse
  rw [hh]
  simp only [List.nil_append]
  rw [fromBE_beBytes 4 _ (by norm_num; omega)]
  rw [if_pos (by omega)]

/-- Peer closure while the body is incomplete is a connectivity failure
and marks the client disconnected. -/
theorem receiveResponse_body_closed (conn : Bool) (hc pc : List (List Nat))
    (evs : List RecvEvent) (L : Nat) (part : List Nat)
    (hhc : Chunked hc (beBytes 4 L)) (hpc : Chunked pc part)
    (hlt : part.length < L) (hmax : L ≤ 16777216) :
    receiveResponse conn (asEvents (hc ++ pc) ++ (.bytes [] :: evs)) =
      (.connectionError "Incomplete response", false) := by
  have hh := recvAllAux_chunked hc [] (beBytes 4 L) 4
    (asEvents pc ++ (.bytes [] :: evs)) hhc (by simp [beBytes_length])
  have hb := recvAllAux_closed_mid pc [] part L evs hpc (by simpa using hlt)
  unfold receiveResponse
  rw [asEvents_append, List.append_assoc, hh]
  simp only [List.nil_append]
  rw [fromBE_beBytes 4 _ (by norm_num; omega)]
  rw [if_neg (by omega), hb]

/-- Peer closure while the 4-byte header is incomplete. -/
theorem receiveResponse_header_closed (conn : Bool) (pc : List (List Nat))
    (evs : List RecvEvent) (part : List Nat)
    (hpc : Chunked pc part) (hlt : part.length < 4) :
    receiveResponse conn (asEvents pc ++ (.bytes [] :: evs)) =
      (.connectionError "Server closed connection", false) := by
  have hh := recvAllAux_closed_mid pc [] part 4 evs hpc (by simpa using hlt)
  unfold receiveResponse
  rw [hh]

/-- An `OSError` raised by `recv` during the header propagates out of
`_receive_response` without touching the connected flag. -/
theorem receiveResponse_header_ioerr (conn : Bool) (pc : List (List Nat))
    (evs : List RecvEvent) (part : List Nat)
    (hpc : Chunked pc part) (hlt : part.length < 4) :
    receiveResponse conn (asEvents pc ++ (.ioErr :: evs)) =
      (.osError, conn) := by
  have hh := recvAllAux_ioerr_mid pc [] part 4 evs hpc (by simpa using hlt)
  unfold receiveResponse
  rw [hh]

theorem getNextSocket_spec (pool : List Nat) (c : Nat) (b : Bool)
    (h : c < pool.length) :
    getNextSocket ⟨pool, c, b⟩ =
      some (pool.get ⟨c, h⟩, ⟨pool, (c + 1) % pool.length, b⟩) := by
  unfold getNextSocket
  dsimp only
  rw [List.get?_eq_get h]

theorem stepK_spec (pool : List Nat) (b : Bool) :
    ∀ (k c : Nat) (hn : 0 < pool.length) (hc : c < pool.length),
    stepK ⟨pool, c, b⟩ k =
      some (pool.get ⟨(c + k) % pool.length, Nat.mod_lt _ hn⟩,
        ⟨pool, (c + k + 1) % pool.length, b⟩) := by
  intro k
  induction k with
  | zero =>
      intro c hn hc
      rw [stepK, getNextSocket_spec pool c b hc]
      simp [Nat.mod_eq_of_lt hc]
  | succ k ih =>
      intro c hn hc
      rw [stepK, getNextSocket_spec pool c b hc]
      dsimp only
      rw [ih ((c + 1) % pool.length) hn (Nat.mod_lt _ hn)]
      simp only [Nat.add_assoc, Nat.mod_add_mod]
      have e1 : c + (1 + k) = c + (k + 1) := by omega
      have e2 : c + (1 + (k + 1)) = c + (k + 1 + 1) := by omega
      simp only [e1, e2]
theorem buildPool_ok_length (a : Nat → Option Nat) :
    ∀ (r i : Nat) (acc pool : List Nat), buildPool a i r acc = .ok pool →
    pool.length = acc.length + r := by
  intro r
  induction r with
  | zero =>
      intro i acc pool h
      simp only [buildPool] at h
      cases h
      simp
  | succ r ih =>
      intro i acc pool h
      rw [buildPool] at h
      cases ha : a i with
      | none => rw [ha] at h; cases h
      | some c =>
          rw [ha] at h
          have := ih (i + 1) (acc ++ [c]) pool h
          simp at this
          omega

theorem buildPool_ok_mem (a : Nat → Option Nat) :
    ∀ (r i : Nat) (acc pool : List Nat), buildPool a i r acc = .ok pool →
    ∀ c ∈ pool, c ∈ acc ∨ ∃ m, a m = some c := by
  intro r
  induction r with
  | zero =>
      intro i acc pool h c hc
      simp only [buildPool] at h
      cases h
      exact Or.inl hc
  | succ r ih =>
      intro i acc pool h c hc
      rw [buildPool] at h
      cases ha : a i with
      | none => rw [ha] at h; cases h
      | some c' =>
          rw [ha] at h
          rcases ih (i + 1) (acc ++ [c']) pool h c hc with hm | hm
          · rcases List.mem_append.1 hm with hm' | hm'
            · exact Or.inl hm'
            · simp at hm'
              subst hm'
              exact Or.inr ⟨i, ha⟩
          · exact Or.inr hm

theorem createSocket_handshake (tcp : Nat → Option Nat) (hs : Nat → Bool)
    (i c : Nat) (h : createSocket tcp hs i = some c) : hs c = true := by
  unfold createSocket at h
  cases htcp : tcp i with
  | none => rw [htcp] at h; cases h
  | some sock =>
      rw [htcp] at h
      dsimp only at h
      by_cases hh : hs sock = true
      · rw [if_pos hh] at h
        cases h
        exact hh
      · rw [if_neg hh] at h
        cases h

theorem buildPool_error_at (a : Nat → Option Nat) :
    ∀ (j r i : Nat) (acc : List Nat), j < r →
    (∀ m, m < j → (a (i + m)).isSome = true) → a (i + j) = none →
    buildPool a i r acc =
      .error (acc ++ (List.range j).filterMap (fun m => a (i + m))) := by
  intro j
  induction j with
  | zero =>
      intro r i acc hjr _ hnone
      cases r with
      | zero => omega
      | succ r =>
          rw [buildPool]
          simp only [Nat.add_zero] at hnone
          rw [hnone]
          simp
  | succ j ih =>
      intro r i acc hjr hsome hnone
      cases r with
      | zero => omega
      | succ r =>
          have h0 : (a i).isSome = true := by
            have := hsome 0 (by omega)
            simpa using this
          rcases Option.isSome_iff_exists.1 h0 with ⟨c, hc⟩
          rw [buildPool, hc]
          dsimp only
          have hrec := ih r (i + 1) (acc ++ [c]) (by omega)
            (fun m hm => by
              have := hsome (m + 1) (by omega)
              rwa [show i + (m + 1) = i + 1 + m from by omega] at this)
            (by rwa [show i + 1 + j = i + (j + 1) from by omega])
          rw [hrec]
          congr 1
          rw [List.range_succ_eq_map]
          simp only [List.filterMap_cons, Nat.add_zero, hc, List.filterMap_map]
          rw [List.append_assoc]
          rw [List.singleton_append]
          refine congrArg (fun t => acc ++ List.cons c t) ?_
          apply List.filterMap_congr
          intro m _
          simp only [Function.comp_apply]
          congr 1
          omega

/-- `_receive_response` either leaves the connected flag unchanged or
returns a connectivity failure with the flag cleared. -/
theorem receiveResponse_flag (conn : Bool) (evs : List RecvEvent) :
    (receiveResponse conn evs).2 = conn ∨
    ∃ m, receiveResponse conn evs = (.connectionError m, false) := by
  unfold receiveResponse
  rcases h4 : recvAllAux 4 [] evs with ⟨out, rest⟩
  cases out with
  | ioErr => simp
  | closed => exact Or.inr ⟨_, rfl⟩
  | got header =>
      dsimp only
      split_ifs with hbig
      · simp
      · rcases hb : recvAllAux (fromBE header) [] rest with ⟨out2, rest2⟩
        cases out2 with
        | ioErr => simp
        | closed => exact Or.inr ⟨_, rfl⟩
        | got data =>
            dsimp only
            split_ifs with hemp
            · exact Or.inr ⟨_, rfl⟩
            · cases decodeTop data <;> simp

theorem roundRobin_mod_ne_aux (n c i j : Nat) (hn : 0 < n) (hj : j < n)
    (hij : i < j) : (c + i) % n ≠ (c + j) % n := by
  intro h
  have hmod : Nat.ModEq n (c + i) (c + j) := h
  have hdvd : n ∣ (c + j) - (c + i) := (Nat.modEq_iff_dvd' (by omega)).1 hmod
  rw [show (c + j) - (c + i) = j - i from by omega] at hdvd
  have := Nat.le_of_dvd (by omega) hdvd
  omega

theorem roundRobin_mod_ne (n c i j : Nat) (hn : 0 < n) (hi : i < n)
    (hj : j < n) (hne : i ≠ j) : (c + i) % n ≠ (c + j) % n := by
  rcases Nat.lt_or_ge i j with hij | hij
  · exact roundRobin_mod_ne_aux n c i j hn hj hij
  · exact (roundRobin_mod_ne_aux n c j i hn hi (by omega)).symm

theorem getNextSocket_pool (st : ClientState) (sock : Nat) (st' : ClientState)
    (h : getNextSocket st = some (sock, st')) :
    st'.pool = st.pool ∧ st'.connected = st.connected := by
  unfold getNextSocket at h
  cases hg : st.pool.get? st.poolIndex with
  | none => rw [hg] at h; cases h
  | some s =>
      rw [hg] at h
      dsimp only at h
      cases h
      exact ⟨rfl, rfl⟩

/-- `_send_command` on a connected client with a non-empty pool: no
reconnection happens; the command goes to the round-robin socket. -/
theorem sendCommand_connected (w : SendWorld) (ps : Nat) (st : ClientState)
    (sock : Nat) (st₂ : ClientState)
    (hconn : st.connected = true) (hpool : st.pool ≠ [])
    (hg : getNextSocket st = some (sock, st₂)) :
    sendCommand w ps st = sendReceive w sock st₂ := by
  unfold sendCommand
  rw [if_pos ⟨hconn, hpool⟩]
  dsimp only
  rw [hg]

/-- `_send_command` on a disconnected client first rebuilds the whole
pool via `connect`. -/
theorem sendCommand_disconnected (w : SendWorld) (ps : Nat) (st : ClientState)
    (hconn : st.connected = false) :
    sendCommand w ps st =
      (match buildPool (createSocket w.tcp w.handshake) 0 ps [] with
      | .error _ =>
          some (.connectionError "Failed to connect", { st with pool := [] })
      | .ok pool =>
        match getNextSocket { st with pool := pool, connected := true } with
        | none => none
        | some (sock, st₂) => sendReceive w sock st₂) := by
  unfold sendCommand connectModel
  rw [if_neg (by simp [hconn]), if_neg (by simp [hconn])]
  cases hb : buildPool (createSocket w.tcp w.handshake) 0 ps [] with
  | error closed => rfl
  | ok pool => rfl

/-- **C1** (counterexample): a frame declaring length 0 does not reach the
deserializer; the empty body is falsy in Python, so the client raises the
connectivity failure `ConnectionError("Incomplete response")` and marks
itself disconnected, instead of deserializing the empty body. -/
theorem claim_C1_counterexample :
    receiveResponse true [.bytes [0, 0, 0, 0]] =
      (.connectionError "Incomplete response", false) := rfl

/-- **C1** (amended): for every received frame whose declared big-endian
length is at least 1 and at most 16 MiB, the decoder reads exactly that
many body bytes, reassembling arbitrarily split header and body chunks
into one logical frame, and then deserializes them; a deserialization
failure raises a protocol failure, distinct from the connectivity failure
raised (with the client marked disconnected) by a zero-byte read before
the body is complete. -/
theorem claim_C1_amended :
    (∀ (conn : Bool) (hc bc : List (List Nat)) (evs : List RecvEvent)
      (body : List Nat),
      Chunked hc (beBytes 4 body.length) → Chunked bc body →
      1 ≤ body.length → body.length ≤ 16777216 →
      receiveResponse conn (asEvents (hc ++ bc) ++ evs) =
        ((match decodeTop body with
          | some v => interpretResponse v
          | none => RespResult.protocolError "Failed to deserialize response"),
          conn))
  ∧ (∀ (conn : Bool) (hc pc : List (List Nat)) (evs : List RecvEvent)
      (L : Nat) (part : List Nat),
      Chunked hc (beBytes 4 L) → Chunked pc part →
      part.length < L → L ≤ 16777216 →
      receiveResponse conn (asEvents (hc ++ pc) ++ (.bytes [] :: evs)) =
        (.connectionError "Incomplete response", false)) :=
  ⟨fun conn hc bc evs body hhc hbc h1 h2 =>
      receiveResponse_body conn hc bc evs body hhc hbc h1 h2,
    fun conn hc pc evs L part hhc hpc hlt hmax =>
      receiveResponse_body_closed conn hc pc evs L part hhc hpc hlt hmax⟩

/-- **C1** witness: a 1-byte frame (msgpack `true`) with the header split
`[0,0]/[0,1]` is reassembled and deserialized. -/
theorem claim_C1_witness :
    receiveResponse true (asEvents ([[0, 0], [0, 1]] ++ [[195]]) ++ []) =
      (.ok (.bool true), true) := by
  have h := claim_C1_amended.1 true [[0, 0], [0, 1]] [[195]] [] [195]
    ⟨by decide, by decide⟩ ⟨by decide, by decide⟩ (by decide) (by decide)
  have hd : decodeTop [195] = some (Value.bool true) := by
    simp [decodeTop, decodeVal]
  rw [h, hd]
  rfl
/-- **C2**: a received `["error", body]` response raises a server-reported
failure whose message is `body` itself when `body` is a string, the sole
value of `body` when `body` is a map with exactly one entry, and the
stringification of `body` otherwise. -/
theorem claim_C2 :
    (∀ (conn : Bool) (body : Value) (hc bc : List (List Nat))
      (evs : List RecvEvent),
      wfValue body = true →
      Chunked hc (beBytes 4
        (encodeVal (Value.arr [Value.str (strBytes "error"), body])).length) →
      Chunked bc (encodeVal (Value.arr [Value.str (strBytes "error"), body])) →
      (encodeVal (Value.arr [Value.str (strBytes "error"), body])).length
        ≤ 16777216 →
      receiveResponse conn (asEvents (hc ++ bc) ++ evs) =
        (.serverError (errorMessage body), conn))
  ∧ (∀ s, errorMessage (.str s) = .str s)
  ∧ (∀ k v, errorMessage (.map [(k, v)]) = v)
  ∧ (∀ b : Value, (∀ kv, b ≠ .map [kv]) →
      errorMessage b = .str (pyStr b)) := by
  refine ⟨?_, ?_, ?_, ?_⟩
  · intro conn body hc bc evs hwf hhc hbc hsize
    have hwfe : wfValue (Value.str (strBytes "error")) = true := by decide
    have hwfr :
        wfValue (Value.arr [Value.str (strBytes "error"), body]) = true := by
      simp only [wfValue, wfElems, hwf, Bool.and_true, List.length_cons,
        List.length_nil]
      rfl
    have h := receiveResponse_body conn hc bc evs
      (encodeVal (Value.arr [Value.str (strBytes "error"), body])) hhc hbc
      (encodeVal_pos _) hsize
    rw [h, decodeTop_encodeVal _ hwfr]
    have hint :
        interpretResponse (Value.arr [Value.str (strBytes "error"), body]) =
          .serverError (errorMessage body) := by
      unfold interpretResponse
      dsimp only
      rw [if_neg (by decide), if_pos rfl]
      rfl
    dsimp only
    rw [hint]
  · intro s; rfl
  · intro k v; rfl
  · intro b hb
    cases b with
    | map kvs =>
        cases kvs with
        | nil => rfl
        | cons kv rest =>
            cases rest with
            | nil => exact absurd rfl (hb kv)
            | cons kv' rest' => rfl
    | nil => rfl
    | bool x => rfl
    | int x => rfl
    | float x => rfl
    | str x => rfl
    | bin x => rfl
    | arr x => rfl

/-- **C2** witness: the spec's own example, `["error", \x7b"only_key": "v"\x7d]`
delivered as one header chunk and one payload chunk, raises a
server-reported failure with message `"v"`. -/
theorem claim_C2_witness :
    receiveResponse true
      (asEvents ([[0, 0, 0, 19]] ++
        [[146, 165, 101, 114, 114, 111, 114, 129, 168, 111, 110, 108, 121,
          95, 107, 101, 121, 161, 118]]) ++ []) =
      (.serverError (.str (strBytes "v")), true) := by
  have he : encodeVal (Value.arr [Value.str (strBytes "error"),
      Value.map [(Value.str (strBytes "only_key"),
        Value.str (strBytes "v"))]]) =
      [146, 165, 101, 114, 114, 111, 114, 129, 168, 111, 110, 108, 121,
        95, 107, 101, 121, 161, 118] := by
    simp [encodeVal, encodeElems, encodePairs, strHeader, mapHeader,
      arrHeader, strBytes]
  have h := claim_C2.1 true
    (Value.map [(Value.str (strBytes "only_key"), Value.str (strBytes "v"))])
    [[0, 0, 0, 19]]
    [[146, 165, 101, 114, 114, 111, 114, 129, 168, 111, 110, 108, 121,
      95, 107, 101, 121, 161, 118]]
    [] (by decide)
    (by rw [he]; exact ⟨by decide, by decide⟩)
    (by rw [he]; exact ⟨by decide, by decide⟩)
    (by rw [he]; decide)
  exact h

/-- Any result of the send/receive phase keeps the pool and cursor of the
state it was given. -/
theorem sendReceive_state (w : SendWorld) (sock : Nat) (st₂ : ClientState)
    (r : RespResult) (st' : ClientState)
    (h : sendReceive w sock st₂ = some (r, st')) :
    st'.pool = st₂.pool ∧ st'.poolIndex = st₂.poolIndex := by
  unfold sendReceive at h
  by_cases hs : w.sendOk sock = true
  · rw [if_pos hs] at h
    rcases hr : receiveResponse st₂.connected (w.recvEvents sock) with ⟨r', c'⟩
    rw [hr] at h
    cases r' <;> dsimp only at h <;>
      (injection h with h1; injection h1 with ha hb; subst hb; exact ⟨rfl, rfl⟩)
  · rw [if_neg hs] at h
    injection h with h1
    injection h1 with ha hb
    subst hb
    exact ⟨rfl, rfl⟩

/-- A `ProtocolError` surfacing from the send/receive phase leaves the
connected flag exactly as `_receive_response` left it — unchanged. -/
theorem sendReceive_protocolError (w : SendWorld) (sock : Nat)
    (st₂ : ClientState) (m : String) (st' : ClientState)
    (h : sendReceive w sock st₂ = some (.protocolError m, st')) :
    st'.connected = st₂.connected := by
  unfold sendReceive at h
  by_cases hs : w.sendOk sock = true
  · rw [if_pos hs] at h
    rcases hr : receiveResponse st₂.connected (w.recvEvents sock) with ⟨r', c'⟩
    rw [hr] at h
    cases r' with
    | protocolError m' =>
        dsimp only at h
        injection h with h1
        injection h1 with ha hb
        subst hb
        rcases receiveResponse_flag st₂.connected (w.recvEvents sock) with
          hf | ⟨mm, hmm⟩
        · rw [hr] at hf
          exact hf
        · rw [hmm] at hr
          injection hr with hx hy
          exact RespResult.noConfusion hx
    | ok b =>
        dsimp only at h
        injection h with h1
        injection h1 with ha hb
        exact RespResult.noConfusion ha
    | serverError b =>
        dsimp only at h
        injection h with h1
        injection h1 with ha hb
        exact RespResult.noConfusion ha
    | connectionError b =>
        dsimp only at h
        injection h with h1
        injection h1 with ha hb
        exact RespResult.noConfusion ha
    | osError =>
        dsimp only at h
        injection h with h1
        injection h1 with ha hb
        exact RespResult.noConfusion ha
  · rw [if_neg hs] at h
    injection h with h1
    injection h1 with ha hb
    exact RespResult.noConfusion ha

/-- **C3** (counterexample): the decoded value `["ok"]` — a one-element
list with a string head, hence neither a `[status, body]` pair nor a
map — is not returned unchanged: the code treats it as status `"ok"`
with a missing body and returns `None`. -/
theorem claim_C3_counterexample :
    receiveResponse true
      (asEvents ([[0, 0, 0, 4]] ++ [[145, 162, 111, 107]]) ++ []) =
      (.ok Value.nil, true)
    ∧ RespResult.ok Value.nil ≠
        RespResult.ok (Value.arr [Value.str (strBytes "ok")]) := by
  constructor
  · have he : encodeVal (Value.arr [Value.str (strBytes "ok")]) =
        [145, 162, 111, 107] := by
      simp [encodeVal, encodeElems, strHeader, arrHeader, strBytes]
    have hwf : wfValue (Value.arr [Value.str (strBytes "ok")]) = true := by
      simp only [wfValue, wfElems, List.length_cons, List.length_nil]
      rfl
    have h := receiveResponse_body true [[0, 0, 0, 4]] [[145, 162, 111, 107]]
      [] [145, 162, 111, 107]
      ⟨by decide, by decide⟩ ⟨by decide, by decide⟩ (by decide) (by decide)
    rw [h]
    have hd : decodeTop [145, 162, 111, 107] =
        some (Value.arr [Value.str (strBytes "ok")]) := by
      rw [← he]
      exact decodeTop_encodeVal _ hwf
    rw [hd]
    rfl
  · intro h
    injection h with h1
    exact Value.noConfusion h1

/-- **C3** (amended): for every response pair `[status, body]` with a
string status other than `"error"`, the client returns `body` unchanged
(forward-compatible passthrough); more generally a non-empty list with a
string head is split into status and second-element body (`None` when
absent) and any non-error status returns that body; and any decoded
value that is neither a non-empty list with a string head nor a map is
returned unchanged. -/
theorem claim_C3_amended :
    (∀ (conn : Bool) (st : List Nat) (body : Value) (hc bc : List (List Nat))
      (evs : List RecvEvent),
      wfValue (Value.arr [Value.str st, body]) = true →
      st ≠ strBytes "error" →
      Chunked hc (beBytes 4 (encodeVal (Value.arr [Value.str st, body])).length) →
      Chunked bc (encodeVal (Value.arr [Value.str st, body])) →
      (encodeVal (Value.arr [Value.str st, body])).length ≤ 16777216 →
      receiveResponse conn (asEvents (hc ++ bc) ++ evs) = (.ok body, conn))
  ∧ (∀ (st : List Nat) (tail : List Value), st ≠ strBytes "error" →
      interpretResponse (.arr (.str st :: tail)) = .ok (tail.headD .nil))
  ∧ (∀ v : Value, isStrHeadList v = false → isMap v = false →
      interpretResponse v = .ok v) := by
  have hb : ∀ (st : List Nat) (tail : List Value), st ≠ strBytes "error" →
      interpretResponse (.arr (.str st :: tail)) = .ok (tail.headD .nil) := by
    intro st tail hst
    unfold interpretResponse
    dsimp only
    split_ifs with h1 h2 h3 <;> first | rfl | exact absurd h2 hst
  refine ⟨?_, hb, ?_⟩
  · intro conn st body hc bc evs hwf hst hhc hbc hsize
    have h := receiveResponse_body conn hc bc evs
      (encodeVal (Value.arr [Value.str st, body])) hhc hbc
      (encodeVal_pos _) hsize
    rw [h, decodeTop_encodeVal _ hwf]
    dsimp only
    rw [hb st [body] hst]
    rfl
  · intro v h1 h2
    cases v with
    | arr xs =>
        cases xs with
        | nil => rfl
        | cons x rest =>
            cases x with
            | str s => simp [isStrHeadList] at h1
            | nil => rfl
            | bool b => rfl
            | int i => rfl
            | float f => rfl
            | bin b => rfl
            | arr a => rfl
            | map m => rfl
    | map kvs => simp [isMap] at h2
    | nil => rfl
    | bool b => rfl
    | int i => rfl
    | float f => rfl
    | str s => rfl
    | bin b => rfl

/-- **C3** witness: `["ok", 7]` split as one header chunk and one payload
chunk comes back as `7`. -/
theorem claim_C3_witness :
    receiveResponse true
      (asEvents ([[0, 0, 0, 5]] ++ [[146, 162, 111, 107, 7]]) ++ []) =
      (.ok (.int 7), true) := by
  have he : encodeVal (Value.arr [Value.str (strBytes "ok"), Value.int 7]) =
      [146, 162, 111, 107, 7] := by
    simp [encodeVal, encodeElems, strHeader, arrHeader, packInt, strBytes]
  exact claim_C3_amended.1 true (strBytes "ok") (.int 7)
    [[0, 0, 0, 5]] [[146, 162, 111, 107, 7]] []
    (by simp only [wfValue, wfElems, List.length_cons, List.length_nil]; rfl)
    (by decide)
    (by rw [he]; exact ⟨by decide, by decide⟩)
    (by rw [he]; exact ⟨by decide, by decide⟩)
    (by rw [he]; decide)

/-- **C4**: a received frame whose declared length strictly exceeds
16 MiB raises a protocol failure before attempting to read or decode the
body (the result is the same whatever events follow the header); a
declared length of exactly 16 MiB passes the size check and the client
proceeds to read the body. -/
theorem claim_C4 :
    (∀ (conn : Bool) (hc : List (List Nat)) (evs : List RecvEvent) (L : Nat),
      Chunked hc (beBytes 4 L) → 16777216 < L → L < 4294967296 →
      receiveResponse conn (asEvents hc ++ evs) =
        (.protocolError ("Message too large: " ++ toString L ++ " bytes"),
          conn))
  ∧ (∀ conn : Bool,
      receiveResponse conn [.bytes (beBytes 4 16777216)] =
        (.connectionError "Incomplete response", false)) :=
  ⟨fun conn hc evs L h1 h2 h3 =>
      receiveResponse_too_large conn hc evs L h1 h2 h3,
    fun _ => rfl⟩

/-- **C4** witness: a declared length of 16 MiB + 1 is rejected without
the body being read. -/
theorem claim_C4_witness :
    receiveResponse true (asEvents [[1, 0, 0, 1]] ++ []) =
      (.protocolError ("Message too large: " ++ toString 16777217 ++
        " bytes"), true) :=
  claim_C4.1 true [[1, 0, 0, 1]] [] 16777217
    ⟨by decide, by decide⟩ (by decide) (by decide)

/-- **C7**: connection selection is round-robin: the `k`-th selection
since bring-up (cursor starting at 0) returns the connection at index
`k mod n` and leaves the cursor at `(k+1) mod n`; and each single
selection returns the connection at the cursor, advances it modulo the
pool size and keeps it in `[0, n)` while leaving pool and flag alone. -/
theorem claim_C7 :
    (∀ (pool : List Nat) (b : Bool) (k : Nat) (hn : 0 < pool.length),
      stepK ⟨pool, 0, b⟩ k =
        some (pool.get ⟨k % pool.length, Nat.mod_lt _ hn⟩,
          ⟨pool, (k + 1) % pool.length, b⟩))
  ∧ (∀ (st : ClientState) (sock : Nat) (st' : ClientState)
      (h : st.poolIndex < st.pool.length),
      getNextSocket st = some (sock, st') →
      sock = st.pool.get ⟨st.poolIndex, h⟩ ∧
      st'.poolIndex < st.pool.length ∧
      st'.poolIndex = (st.poolIndex + 1) % st.pool.length ∧
      st'.pool = st.pool ∧ st'.connected = st.connected) := by
  constructor
  · intro pool b k hn
    have h := stepK_spec pool b k 0 hn hn
    simpa using h
  · intro st sock st' h hg
    obtain ⟨pool, c, b⟩ := st
    dsimp only at h ⊢
    rw [getNextSocket_spec pool c b h] at hg
    injection hg with h1
    injection h1 with ha hb
    subst ha
    subst hb
    exact ⟨rfl, Nat.mod_lt _ (by omega), rfl, rfl, rfl⟩

/-- **C7** witness: on a pool of three sockets the 4th selection
(`k = 3`) wraps around to index 0. -/
theorem claim_C7_witness :
    stepK ⟨[10, 20, 30], 0, true⟩ 3 =
      some (10, ⟨[10, 20, 30], 1, true⟩) := by
  have h := claim_C7.1 [10, 20, 30] true 3 (by decide)
  simpa using h

/-- **C8**: decoding the encoded payload of a command yields a value
structurally equal to the original: `unpackb(pack(command)) == command`
for every command representable by the packer. -/
theorem claim_C8 (cmd : Value) (hwf : wfValue cmd = true) :
    decodeTop (encodeVal cmd) = some cmd :=
  decodeTop_encodeVal cmd hwf

/-- **C8** witness: a nested command with a map, strings, a negative
integer, null, booleans, a float bit pattern and raw bytes round-trips. -/
theorem claim_C8_witness :
    wfValue (Value.map [(Value.str (strBytes "cmd"),
        Value.str (strBytes "ping")),
      (Value.str (strBytes "n"), Value.int (-300)),
      (Value.str (strBytes "xs"),
        Value.arr [Value.nil, Value.bool true,
          Value.float 4614253070214989087, Value.bin [0, 255]])]) = true
    ∧ decodeTop (encodeVal (Value.map [(Value.str (strBytes "cmd"),
        Value.str (strBytes "ping")),
      (Value.str (strBytes "n"), Value.int (-300)),
      (Value.str (strBytes "xs"),
        Value.arr [Value.nil, Value.bool true,
          Value.float 4614253070214989087, Value.bin [0, 255]])])) =
      some (Value.map [(Value.str (strBytes "cmd"),
        Value.str (strBytes "ping")),
      (Value.str (strBytes "n"), Value.int (-300)),
      (Value.str (strBytes "xs"),
        Value.arr [Value.nil, Value.bool true,
          Value.float 4614253070214989087, Value.bin [0, 255]])]) := by
  have hwf : wfValue (Value.map [(Value.str (strBytes "cmd"),
      Value.str (strBytes "ping")),
    (Value.str (strBytes "n"), Value.int (-300)),
    (Value.str (strBytes "xs"),
      Value.arr [Value.nil, Value.bool true,
        Value.float 4614253070214989087, Value.bin [0, 255]])]) = true := by
    simp only [wfValue, wfElems, wfPairs, List.length_cons, List.length_nil]
    rfl
  exact ⟨hwf, claim_C8 _ hwf⟩

/-- **C5**: an I/O failure of `sendall`, an `OSError` from `recv`, or
peer closure before a full frame all mark the whole client disconnected
(`connected := false`, the pool untouched) and surface as a connectivity
failure; and an invoke on a client that is not connected first performs
a full pool bring-up — on bring-up failure the pool is empty and a
connectivity failure is returned, on success the freshly built pool is
the one used. -/
theorem claim_C5 :
    (∀ (w : SendWorld) (ps : Nat) (st : ClientState) (sock : Nat)
      (st₂ : ClientState),
      st.connected = true → st.pool ≠ [] →
      getNextSocket st = some (sock, st₂) → w.sendOk sock = false →
      sendCommand w ps st =
        some (.connectionError "Connection lost",
          { st₂ with connected := false }))
  ∧ (∀ (w : SendWorld) (ps : Nat) (st : ClientState) (sock : Nat)
      (st₂ : ClientState),
      st.connected = true → st.pool ≠ [] →
      getNextSocket st = some (sock, st₂) → w.sendOk sock = true →
      (receiveResponse st₂.connected (w.recvEvents sock)).1 = .osError →
      sendCommand w ps st =
        some (.connectionError "Connection lost",
          { st₂ with connected := false }))
  ∧ (∀ (w : SendWorld) (ps : Nat) (st : ClientState) (sock : Nat)
      (st₂ : ClientState) (m : String),
      st.connected = true → st.pool ≠ [] →
      getNextSocket st = some (sock, st₂) → w.sendOk sock = true →
      receiveResponse st₂.connected (w.recvEvents sock) =
        (.connectionError m, false) →
      sendCommand w ps st =
        some (.connectionError m, { st₂ with connected := false }))
  ∧ (∀ (w : SendWorld) (ps : Nat) (st : ClientState),
      st.connected = false →
      (∀ closed, buildPool (createSocket w.tcp w.handshake) 0 ps [] =
          .error closed →
        sendCommand w ps st =
          some (.connectionError "Failed to connect", { st with pool := [] }))
      ∧ (∀ pool r st',
          buildPool (createSocket w.tcp w.handshake) 0 ps [] = .ok pool →
          sendCommand w ps st = some (r, st') → st'.pool = pool)) := by
  refine ⟨?_, ?_, ?_, ?_⟩
  · intro w ps st sock st₂ hconn hpool hg hsend
    rw [sendCommand_connected w ps st sock st₂ hconn hpool hg]
    unfold sendReceive
    rw [if_neg (by simp [hsend])]
  · intro w ps st sock st₂ hconn hpool hg hsend hos
    rw [sendCommand_connected w ps st sock st₂ hconn hpool hg]
    unfold sendReceive
    rw [if_pos hsend]
    rcases hr : receiveResponse st₂.connected (w.recvEvents sock) with ⟨r', c'⟩
    rw [hr] at hos
    dsimp only at hos
    subst hos
    rfl
  · intro w ps st sock st₂ m hconn hpool hg hsend hrc
    rw [sendCommand_connected w ps st sock st₂ hconn hpool hg]
    unfold sendReceive
    rw [if_pos hsend, hrc]
  · intro w ps st hconn
    constructor
    · intro closed herr
      rw [sendCommand_disconnected w ps st hconn, herr]
    · intro pool r st' hok hsc
      rw [sendCommand_disconnected w ps st hconn, hok] at hsc
      dsimp only at hsc
      cases hg : getNextSocket { st with pool := pool, connected := true } with
      | none => rw [hg] at hsc; cases hsc
      | some p =>
          obtain ⟨sock, st₂⟩ := p
          rw [hg] at hsc
          dsimp only at hsc
          have hpools := getNextSocket_pool _ _ _ hg
          have hstate := sendReceive_state w sock st₂ r st' hsc
          rw [hstate.1, hpools.1]

/-- **C5** witness: on a connected single-socket client whose `sendall`
fails, the command surfaces a connectivity failure and the whole client
is marked disconnected. -/
theorem claim_C5_witness :
    sendCommand
      ⟨fun i => some (100 + i), fun _ => true, fun _ => false, fun _ => []⟩
      1 ⟨[7], 0, true⟩ =
      some (.connectionError "Connection lost", ⟨[7], 0, false⟩) := by
  have h := claim_C5.1
    ⟨fun i => some (100 + i), fun _ => true, fun _ => false, fun _ => []⟩
    1 ⟨[7], 0, true⟩ 7 ⟨[7], 0, true⟩
    rfl (by decide) (by decide) rfl
  exact h

/-- **C6**: pool bring-up is atomic.  When every attempt succeeds the
pool has exactly `poolSize` members, each of which completed its
handshake preamble before joining; when attempt `j < poolSize` fails
after `j` successes, every connection created so far (the first `j`
attempts) is closed, the pool is left empty, the client stays not
connected and a connectivity failure is reported. -/
theorem claim_C6 :
    ∀ (tcp : Nat → Option Nat) (hs : Nat → Bool) (ps : Nat)
      (st : ClientState), st.connected = false →
    ((∀ pool, buildPool (createSocket tcp hs) 0 ps [] = .ok pool →
        connectModel (createSocket tcp hs) ps st =
          ({ st with pool := pool, connected := true }, none)
        ∧ pool.length = ps ∧ ∀ c ∈ pool, hs c = true)
    ∧ (∀ j, j < ps → (∀ m, m < j → (createSocket tcp hs m).isSome = true) →
        createSocket tcp hs j = none →
        buildPool (createSocket tcp hs) 0 ps [] =
          .error ((List.range j).filterMap (createSocket tcp hs))
        ∧ connectModel (createSocket tcp hs) ps st =
            ({ st with pool := [] }, some "Failed to connect")
        ∧ ({ st with pool := ([] : List Nat) } :
            ClientState).connected = false)) := by
  intro tcp hs ps st hconn
  constructor
  · intro pool hok
    refine ⟨?_, ?_, ?_⟩
    · unfold connectModel
      rw [if_neg (by simp [hconn]), hok]
    · have := buildPool_ok_length (createSocket tcp hs) ps 0 [] pool hok
      simpa using this
    · intro c hc
      rcases buildPool_ok_mem (createSocket tcp hs) ps 0 [] pool hok c hc with
        hm | ⟨m, hm⟩
      · simp at hm
      · exact createSocket_handshake tcp hs m c hm
  · intro j hj hsome hnone
    have herr := buildPool_error_at (createSocket tcp hs) j ps 0 [] hj
      (fun m hm => by simpa using hsome m hm) (by simpa using hnone)
    have herr' : buildPool (createSocket tcp hs) 0 ps [] =
        .error ((List.range j).filterMap (createSocket tcp hs)) := by
      rw [herr]
      simp
    refine ⟨herr', ?_, ?_⟩
    · unfold connectModel
      rw [if_neg (by simp [hconn]), herr']
    · simpa using hconn

/-- **C6** witness: with two successful attempts the pool is `[10, 11]`;
the same client with the second attempt failing gets an empty pool and
an error after closing socket 10. -/
theorem claim_C6_witness :
    connectModel (createSocket (fun i => some (10 + i)) (fun _ => true)) 2
      ⟨[], 0, false⟩ = (⟨[10, 11], 0, true⟩, none) := by
  have h := (claim_C6 (fun i => some (10 + i)) (fun _ => true) 2
    ⟨[], 0, false⟩ rfl).1 [10, 11] rfl
  exact h.1

/-- **C9**: a protocol failure leaves the connectivity state unchanged:
whenever `_receive_response` yields a `ProtocolError` the connected flag
keeps its prior value; and on a connected client with a non-empty pool
`invoke` does not rebuild the pool (the state keeps the same pool) and a
`ProtocolError` outcome leaves the client marked connected. -/
theorem claim_C9 :
    (∀ (conn : Bool) (evs : List RecvEvent) (m : String),
      (receiveResponse conn evs).1 = .protocolError m →
      (receiveResponse conn evs).2 = conn)
  ∧ (∀ (w : SendWorld) (ps : Nat) (st : ClientState) (r : RespResult)
      (st' : ClientState),
      st.connected = true → st.pool ≠ [] →
      sendCommand w ps st = some (r, st') → st'.pool = st.pool)
  ∧ (∀ (w : SendWorld) (ps : Nat) (st : ClientState) (m : String)
      (st' : ClientState),
      st.connected = true → st.pool ≠ [] →
      sendCommand w ps st = some (.protocolError m, st') →
      st'.connected = true) := by
  refine ⟨?_, ?_, ?_⟩
  · intro conn evs m hp
    rcases receiveResponse_flag conn evs with hf | ⟨m', hm⟩
    · exact hf
    · rw [hm] at hp
      exact RespResult.noConfusion hp
  · intro w ps st r st' hconn hpool hsc
    cases hg : getNextSocket st with
    | none =>
        unfold sendCommand at hsc
        rw [if_pos ⟨hconn, hpool⟩] at hsc
        dsimp only at hsc
        rw [hg] at hsc
        cases hsc
    | some p =>
        obtain ⟨sock, st₂⟩ := p
        rw [sendCommand_connected w ps st sock st₂ hconn hpool hg] at hsc
        have h1 := sendReceive_state w sock st₂ r st' hsc
        have h2 := getNextSocket_pool st sock st₂ hg
        rw [h1.1, h2.1]
  · intro w ps st m st' hconn hpool hsc
    cases hg : getNextSocket st with
    | none =>
        unfold sendCommand at hsc
        rw [if_pos ⟨hconn, hpool⟩] at hsc
        dsimp only at hsc
        rw [hg] at hsc
        cases hsc
    | some p =>
        obtain ⟨sock, st₂⟩ := p
        rw [sendCommand_connected w ps st sock st₂ hconn hpool hg] at hsc
        have h1 := sendReceive_protocolError w sock st₂ m st' hsc
        have h2 := getNextSocket_pool st sock st₂ hg
        rw [h1, h2.2, hconn]

/-- **C9** witness: a connected client receiving an oversized frame gets
a `ProtocolError` while staying connected with its pool intact. -/
theorem claim_C9_witness :
    (receiveResponse true [.bytes [1, 0, 0, 1]]).1 =
      .protocolError ("Message too large: " ++ toString 16777217 ++ " bytes")
    ∧ (receiveResponse true [.bytes [1, 0, 0, 1]]).2 = true := by
  constructor
  · rfl
  · exact claim_C9.1 true [.bytes [1, 0, 0, 1]]
      ("Message too large: " ++ toString 16777217 ++ " bytes") rfl

/-- **C10**: with a duplicate-free pool, any two distinct selections
among `n` consecutive round-robin selections return different
connections, so no two of `pool_size` concurrent requests (whose
selections the pool lock serializes into `n` consecutive `next` calls)
share a connection, and in this model each request exchanges its frames
on a socket no other of these requests touches. -/
theorem claim_C10 :
    ∀ (pool : List Nat) (c : Nat) (b : Bool) (i j : Nat),
      pool.Nodup → c < pool.length → i < pool.length → j < pool.length →
      i ≠ j →
      (stepK ⟨pool, c, b⟩ i).map Prod.fst ≠
        (stepK ⟨pool, c, b⟩ j).map Prod.fst := by
  intro pool c b i j hnd hc hi hj hne
  have hn : 0 < pool.length := by omega
  rw [stepK_spec pool b i c hn hc, stepK_spec pool b j c hn hc]
  simp only [Option.map_some']
  intro h
  injection h with h1
  have hidx := (List.nodup_iff_injective_get.1 hnd) h1
  have hval : (c + i) % pool.length = (c + j) % pool.length :=
    congrArg Fin.val hidx
  exact roundRobin_mod_ne pool.length c i j hn hi hj hne hval

/-- **C10** witness: on the pool `[5, 6, 7]` the first and second
selections return different sockets. -/
theorem claim_C10_witness :
    (stepK ⟨[5, 6, 7], 0, true⟩ 0).map Prod.fst ≠
      (stepK ⟨[5, 6, 7], 0, true⟩ 1).map Prod.fst :=
  claim_C10 [5, 6, 7] 0 true 0 1 (by decide) (by decide) (by decide)
    (by decide) (by decide)

end SoliDB
